import Mathlib

set_option autoImplicit false

/-!
Verification development for the hot-page promotion pipeline:
the kpromoted hotness table and sweeper (mm/kpromoted.c), the IBS
per-cpu sample ring (arch ibs access profiling), and the CXL hotness
monitoring unit driver (drivers/cxl/hmu_perf.c).  Each C function that
the properties concern is translated into an executable Lean function;
machine integer arithmetic is modelled with Nat plus explicit reduction
modulo 2 ^ 64 where the C code computes in unsigned 64-bit types.
-/

namespace KpromotedModel

/-- Modulus of 64-bit unsigned arithmetic (unsigned long / u64 / size_t). -/
def M64 : Nat := 2 ^ 64

/-- C unsigned 64-bit subtraction `a - b`, wrapping modulo 2 ^ 64. -/
def usub (a b : Nat) : Nat := (a % M64 + (M64 - b % M64)) % M64

/-- The NUMA_NO_NODE sentinel used for an unknown observing node. -/
def NUMA_NO_NODE : Int := -1

/-- Embedding of `struct page_hotness_info` (one hotness record).
The fields mirror the C struct: pfn is the page identity, frequency
the in-window access count, last_update the window anchor time,
recency the time of the most recent access, hot_node the candidate
node of the most recent access. -/
structure HotnessInfo where
  pfn : Nat
  frequency : Nat
  last_update : Nat
  recency : Nat
  hot_node : Int
deriving DecidableEq

/-- External page state consulted by kpromoted: residency, LRU state,
current node of the page, and the outcome of a migration attempt
(`kpromote_page`, 0 meaning success). These are collaborators outside
mm/kpromoted.c, so they are parameters of the model. -/
structure AccessEnv where
  toptier : Nat → Bool
  pageOk : Nat → Bool
  onLru : Nat → Bool
  folioNid : Nat → Int
  migrateRet : Nat → Int → Int

/-- Tunables of the hotness table: number of hash buckets
(2 ^ KPROMOTED_HASH_ORDER), the window length in jiffies
(msecs_to_jiffies of KPROMOTED_FREQ_WINDOW), the promotion frequency
threshold, and the external hash function (hash_min). The header
defining the numeric constants is not part of the sources, so they are
kept as parameters, matching the spec requirement that they be
tunables. -/
structure Config where
  nbkts : Nat
  window : Nat
  thresh : Nat
  hash : Nat → Nat

/-- The sharded hotness table: one record list per hash bucket. -/
def Table : Type := List (List HotnessInfo)

instance : DecidableEq Table := by
  unfold Table
  infer_instance

/-- Bucket index of a pfn: `hash_min(pfn, KPROMOTED_HASH_ORDER)`. -/
def hmod (cfg : Config) (pfn : Nat) : Nat := cfg.hash pfn % cfg.nbkts

/-- The table at subsystem start: every bucket empty. -/
def emptyTable (n : Nat) : Table := List.replicate n []

/-- All records of the table, in bucket order. -/
def tableRecords (t : Table) : List HotnessInfo := List.flatten t

/-- Result of `kpromoted_lookup`: either an existing record was found,
or a fresh one was created (kzalloc zeroes the struct, then pfn,
frequency = 1, last_update = now and recency = now are filled in and
the record is added at the bucket head), or allocation failed and the
C code returns `ERR_PTR(-ENOMEM)`. -/
inductive LookupRes where
  | found (phi : HotnessInfo)
  | created (phi : HotnessInfo)
  | nomem
deriving DecidableEq

/-- Embedding of `kpromoted_lookup` (which inlines `__kpromoted_lookup`,
a search of the bucket list for the pfn). `allocOk` models whether the
kzalloc for a missing record succeeds. -/
def kpromoted_lookup (allocOk : Bool) (pfn now bkt : Nat) (t : Table) :
    LookupRes × Table :=
  let bucket := t.getD bkt []
  match bucket.find? (fun r => r.pfn == pfn) with
  | some phi => (LookupRes.found phi, t)
  | none =>
      if allocOk then
        let phi : HotnessInfo := ⟨pfn, 1, now, now, 0⟩
        (LookupRes.created phi, t.set bkt (phi :: bucket))
      else (LookupRes.nomem, t)

/-- The record update performed by `kpromoted_record_access` once it
holds a record: the window test as literally written in the C source,
`(phi->last_update - now) > msecs_to_jiffies(KPROMOTED_FREQ_WINDOW)`
in unsigned arithmetic, then recency and hot_node updates (an unknown
origin node falls back to node 1). -/
def phiUpdate (cfg : Config) (nid : Int) (now : Nat) (r : HotnessInfo) :
    HotnessInfo :=
  let r1 :=
    if usub r.last_update now > cfg.window then
      { r with frequency := 1, last_update := now }
    else
      { r with frequency := r.frequency + 1 }
  { r1 with recency := now, hot_node := if nid == NUMA_NO_NODE then 1 else nid }

/-- Replace the first list element satisfying p by its image under f,
modelling an in-place update of the record found in the bucket. -/
def modifyFirst {α : Type} (p : α → Bool) (f : α → α) : List α → List α
  | [] => []
  | x :: xs => if p x then f x :: xs else x :: modifyFirst p f xs

/-- Outcome of one `kpromoted_record_access` call: a normal return with
value v and resulting table, or a crash (dereference of an invalid
pointer). -/
inductive RAOut where
  | ret (v : Int) (t : Table)
  | crash (t : Table)
deriving DecidableEq

/-- Embedding of `kpromoted_record_access`. Filters (top-tier node,
page not online or a zone device page, folio not on the LRU) return 0
without touching the table. Otherwise the owning bucket is locked and
`kpromoted_lookup` runs; on allocation failure the C code tests
`if (!phi)` against `ERR_PTR(-ENOMEM)`, which is non-NULL, so the
error pointer flows into the update and is dereferenced: that path is
a crash. On the normal path the found or created record is updated in
place and 0 is returned. -/
def kpromoted_record_access (cfg : Config) (env : AccessEnv) (allocOk : Bool)
    (pfn : Nat) (nid : Int) (_src : Nat) (now : Nat) (t : Table) : RAOut :=
  if env.toptier pfn then RAOut.ret 0 t
  else if !(env.pageOk pfn) then RAOut.ret 0 t
  else if !(env.onLru pfn) then RAOut.ret 0 t
  else
    let bkt := hmod cfg pfn
    match kpromoted_lookup allocOk pfn now bkt t with
    | (LookupRes.nomem, t2) => RAOut.crash t2
    | (LookupRes.found _, t2) =>
        RAOut.ret 0 (t2.set bkt
          (modifyFirst (fun r => r.pfn == pfn) (phiUpdate cfg nid now)
            (t2.getD bkt [])))
    | (LookupRes.created _, t2) =>
        RAOut.ret 0 (t2.set bkt
          (modifyFirst (fun r => r.pfn == pfn) (phiUpdate cfg nid now)
            (t2.getD bkt [])))

/-- Embedding of `page_should_be_promoted`, with the exact test order
of the C source; the sweep-time staleness test is
`(now - phi->last_update) > 2 * msecs_to_jiffies(KPROMOTED_FREQ_WINDOW)`
in unsigned arithmetic. -/
def page_should_be_promoted (cfg : Config) (env : AccessEnv) (now : Nat)
    (phi : HotnessInfo) : Bool :=
  if !(env.pageOk phi.pfn) then false
  else if !(env.onLru phi.pfn) then false
  else if env.folioNid phi.pfn == phi.hot_node then false
  else if usub now phi.last_update > 2 * cfg.window then false
  else if phi.frequency < cfg.thresh then false
  else true

/-- Sweep-time classification of a record, labelling each early-return
branch of `page_should_be_promoted` after the vm event it counts. -/
inductive Decision where
  | notEligible
  | nonLru
  | rightNode
  | coldOld
  | coldNotAccessed
  | promote
deriving DecidableEq

/-- Labelled version of `page_should_be_promoted`: same branch
structure, returning which branch fired. -/
def classify (cfg : Config) (env : AccessEnv) (now : Nat)
    (phi : HotnessInfo) : Decision :=
  if !(env.pageOk phi.pfn) then Decision.notEligible
  else if !(env.onLru phi.pfn) then Decision.nonLru
  else if env.folioNid phi.pfn == phi.hot_node then Decision.rightNode
  else if usub now phi.last_update > 2 * cfg.window then Decision.coldOld
  else if phi.frequency < cfg.thresh then Decision.coldNotAccessed
  else Decision.promote

/-- One bucket of `kpromoted_migrate`: iterate the bucket list; skip
records whose hot_node is not the sweeping node; for promotable
records call `kpromote_page` (recorded as a migrate call with pfn and
hot_node) and remove the record only when that call returns 0;
non-promotable records are removed without any migrate call. Returns
the surviving bucket and the list of migrate calls in order. -/
def sweepBucket (cfg : Config) (env : AccessEnv) (nid : Int) (now : Nat) :
    List HotnessInfo → List HotnessInfo × List (Nat × Int)
  | [] => ([], [])
  | phi :: rest =>
      let pr := sweepBucket cfg env nid now rest
      if phi.hot_node != nid then (phi :: pr.1, pr.2)
      else if page_should_be_promoted cfg env now phi then
        if env.migrateRet phi.pfn phi.hot_node == 0 then
          (pr.1, (phi.pfn, phi.hot_node) :: pr.2)
        else
          (phi :: pr.1, (phi.pfn, phi.hot_node) :: pr.2)
      else (pr.1, pr.2)

/-- Embedding of `kpromoted_migrate`: sweep every bucket in order,
collecting the migrate calls. -/
def kpromoted_migrate (cfg : Config) (env : AccessEnv) (nid : Int)
    (now : Nat) : Table → Table × List (Nat × Int)
  | [] => ([], [])
  | b :: bs =>
      let pb := sweepBucket cfg env nid now b
      let pbs := kpromoted_migrate cfg env nid now bs
      (pb.1 :: pbs.1, pb.2 ++ pbs.2)

/-- One operation of the subsystem: an ingestion call or a node sweep.
Each operation carries its own view of the external page state. -/
inductive Op where
  | access (env : AccessEnv) (allocOk : Bool) (pfn : Nat) (nid : Int)
      (src : Nat) (now : Nat)
  | sweep (env : AccessEnv) (nid : Int) (now : Nat)

/-- Apply one operation; a crash stops the machine (state none). -/
def runOp (cfg : Config) (st : Option Table) (op : Op) : Option Table :=
  match st, op with
  | none, _ => none
  | some t, Op.access env allocOk pfn nid src now =>
      match kpromoted_record_access cfg env allocOk pfn nid src now t with
      | RAOut.ret _ t2 => some t2
      | RAOut.crash _ => none
  | some t, Op.sweep env nid now =>
      some (kpromoted_migrate cfg env nid now t).1

/-- Apply a sequence of operations to a machine state. -/
def runState (cfg : Config) : Option Table → List Op → Option Table
  | st, [] => st
  | st, op :: ops => runState cfg (runOp cfg st op) ops

/-- Run a sequence of operations from a starting table. -/
def run (cfg : Config) (ops : List Op) (t : Table) : Option Table :=
  runState cfg (some t) ops

/-- A record survives a sweep of node nid exactly when it belongs to a
different node, or it was promotable but the migrate call failed. -/
def keepAfterSweep (cfg : Config) (env : AccessEnv) (nid : Int) (now : Nat)
    (phi : HotnessInfo) : Bool :=
  phi.hot_node != nid ||
    (page_should_be_promoted cfg env now phi &&
      !(env.migrateRet phi.pfn phi.hot_node == 0))

/-- A record triggers a migrate call during a sweep of node nid exactly
when it belongs to nid and passes `page_should_be_promoted`. -/
def promotedInSweep (cfg : Config) (env : AccessEnv) (nid : Int) (now : Nat)
    (phi : HotnessInfo) : Bool :=
  phi.hot_node == nid && page_should_be_promoted cfg env now phi

/-- Concrete tunables for evaluations: 16 buckets, a 1000 jiffies
window, promotion threshold 2, identity hash. -/
def cfgC : Config := ⟨16, 1000, 2, fun p => p⟩

/-- Concrete page environment: no page top tier, every page online and
on the LRU, every page currently on node 0, migration always failing. -/
def envC : AccessEnv :=
  ⟨fun _ => false, fun _ => true, fun _ => true, fun _ => 0, fun _ _ => 1⟩

/-- A one-bucket table holding a single hot record for pfn 1 on
candidate node 2. -/
def c3t : Table := [[⟨1, 5, 100, 100, 2⟩]]

/-- A short operation sequence: two accesses to pfn 5, one to pfn 6. -/
def c9ops : List Op :=
  [Op.access envC true 5 2 0 100, Op.access envC true 5 2 0 101,
   Op.access envC true 6 2 0 101]

/-- The table reached by c9ops from the empty table. -/
def c9T : Table := (run cfgC c9ops (emptyTable cfgC.nbkts)).getD []

/-- Per-bucket pfn list. -/
def pfns (l : List HotnessInfo) : List Nat := l.map (fun r => r.pfn)

/-- Well-formedness of one bucket with index i: every member hashes to
i and member pfns are distinct. -/
def bucketOK (cfg : Config) (i : Nat) (l : List HotnessInfo) : Prop :=
  (∀ p ∈ pfns l, hmod cfg p = i) ∧ (pfns l).Nodup

/-- Structural invariant of the table: the bucket count matches the
configuration and every bucket is well formed for its index. -/
def WF (cfg : Config) (t : Table) : Prop :=
  t.length = cfg.nbkts ∧ ∀ i : Nat, bucketOK cfg i (t.getD i [])

end KpromotedModel

namespace IbsModel

/-- IBS_NR_SAMPLES: number of slots of the per-cpu sample ring. -/
def IBS_NR_SAMPLES : Nat := 50

/-- Embedding of `struct ibs_sample`: pfn, access time in jiffies, and
the accessing node id. -/
structure IbsSample where
  pfn : Nat
  time : Nat
  nid : Int
deriving DecidableEq

/-- Embedding of `struct ibs_sample_pcpu`: the 50 slot array plus the
producer (head) and consumer (tail) cursors. -/
structure IbsRing where
  samples : List IbsSample
  head : Nat
  tail : Nat
deriving DecidableEq

def zeroSample : IbsSample := ⟨0, 0, 0⟩

/-- The ring as allocated by `alloc_percpu_gfp` with `__GFP_ZERO`:
every slot zeroed, both cursors 0. -/
def initRing : IbsRing := ⟨List.replicate IBS_NR_SAMPLES zeroSample, 0, 0⟩

/-- Embedding of `ibs_push_sample`. Note that the C store writes only
the pfn and time fields of the slot; the nid argument is never stored,
so the slot keeps whatever nid value it already had. Returns 1 on
success and 0 when the ring is full (the sample is dropped and the
caller counts the drop). -/
def ibs_push_sample (pfn : Nat) (_nid : Int) (time : Nat) (r : IbsRing) :
    Nat × IbsRing :=
  let next0 := r.head + 1
  let next := if IBS_NR_SAMPLES ≤ next0 then 0 else next0
  if next == r.tail then (0, r)
  else
    let old := r.samples.getD r.head zeroSample
    (1, { r with
            samples := r.samples.set r.head { old with pfn := pfn, time := time },
            head := next })

/-- Embedding of `ibs_pop_sample`: nothing when empty, otherwise the
slot at tail and the ring with the tail advanced (with wraparound). -/
def ibs_pop_sample (r : IbsRing) : Option (IbsSample × IbsRing) :=
  let next0 := r.tail + 1
  if r.head == r.tail then none
  else
    let next := if IBS_NR_SAMPLES ≤ next0 then 0 else next0
    some (r.samples.getD r.tail zeroSample, { r with tail := next })

/-- Push a sequence of (pfn, nid, time) samples with no intervening
pops, returning the number of dropped (rejected) pushes and the final
ring. -/
def pushMany : List (Nat × Int × Nat) → IbsRing → Nat × IbsRing
  | [], r => (0, r)
  | x :: rest, r =>
      let pr := ibs_push_sample x.1 x.2.1 x.2.2 r
      let prs := pushMany rest pr.2
      ((if pr.1 == 0 then 1 else 0) + prs.1, prs.2)

/-- Pop up to k samples, stopping early when the ring is empty. -/
def popN : Nat → IbsRing → List IbsSample
  | 0, _ => []
  | Nat.succ k, r =>
      match ibs_pop_sample r with
      | none => []
      | some sr => sr.1 :: popN k sr.2

/-- The slot writes performed by a sequence of accepted pushes starting
at slot h: each write keeps the old nid of the slot. -/
def writeSeq (s : List IbsSample) (h : Nat) : List (Nat × Int × Nat) →
    List IbsSample
  | [] => s
  | x :: xs =>
      writeSeq
        (s.set h { s.getD h zeroSample with pfn := x.1, time := x.2.2 })
        (h + 1) xs

/-- Fifty samples pushed in a burst: pfn i, observing node 7, time
100 + i. -/
def c4L : List (Nat × Int × Nat) :=
  (List.range 50).map (fun i => (i, (7 : Int), 100 + i))

end IbsModel

namespace CxlHmuModel

open KpromotedModel (M64 usub)

/-- Error constants used by the driver. -/
def EINVAL : Int := 22
def EOPNOTSUPP : Int := 95
def ENOENT : Int := 2
def EBUSY : Int := 16
def ETIMEDOUT : Int := 110

/-- Conversion of a C signed intermediate to size_t (modulo 2 ^ 64). -/
def i2sz (i : Int) : Nat := (i % (M64 : Int)).toNat

/-- Device-side state read at the start of `cxl_hmu_update_aux`: the
head and tail cursors of the hotlist ring, the hotlist capacity (top)
from CAP0, and the counter width from the status register. -/
structure DevState where
  head : Nat
  tail : Nat
  top : Nat
  width : Nat
deriving DecidableEq

/-- One staging buffer write of the drain: the 16-byte chunk header
(recording the entry count field and the counter width) or a
`memcpy_fromio` of len bytes starting at byte srcOff of the hotlist. -/
inductive Evt where
  | hdr (entries width : Nat)
  | copyFrom (srcOff len : Nat)
deriving DecidableEq

/-- Result of one `cxl_hmu_update_aux` drain: the writes into the
staging buffer in order, the size handed to `perf_aux_output_end`, the
final write cursor, whether the buffer was exactly filled, and the
value written to the device head register (none when the full check
returned early). -/
structure AuxOut where
  evts : List Evt
  size : Nat
  pos : Nat
  full : Bool
  headWrite : Option Nat
deriving DecidableEq

/-- Size of the chunk header (two u64 words). -/
def HDRSZ : Nat := 16

/-- The tail of `cxl_hmu_update_aux` after the copy loop: report size,
check for an exactly full staging buffer (returning before the head
register update), otherwise advance the device head register to tail. -/
def finishAux (len tail : Nat) (evts : List Evt) (size pos : Nat) : AuxOut :=
  ⟨evts, size, pos, pos == len, if pos == len then none else some tail⟩

/-- Embedding of `cxl_hmu_update_aux`. All cursor arithmetic follows
the C source: the staging space bounds are computed in size_t
(wrapping modulo 2 ^ 64), entry counts are masked to the 16-bit header
field, and for a wrapped region (tail < head) the segment from head to
the buffer top is copied first, then the segment from the buffer start
to tail, under a single header written only when the first segment is
nonempty. -/
def cxl_hmu_update_aux (d : DevState) (len pos0 : Nat) : AuxOut :=
  if d.head < d.tail then
    let tocopy := Nat.min ((d.tail - d.head) * 8) (usub (usub len pos0) HDRSZ)
    let evts := if tocopy ≠ 0 then
        [Evt.hdr ((tocopy / 8) % 2 ^ 16) d.width, Evt.copyFrom (d.head * 8) tocopy]
      else []
    let size := if tocopy ≠ 0 then HDRSZ + tocopy else 0
    let pos := if tocopy ≠ 0 then pos0 + HDRSZ + tocopy else pos0
    finishAux len d.tail evts size pos
  else if d.tail < d.head then
    let tocopy := Nat.min (i2sz (((d.top : Int) - (d.head : Int)) * 8))
      (usub (usub len pos0) HDRSZ)
    let tocopy2 := Nat.min (d.tail * 8) (usub (usub (usub len pos0) tocopy) HDRSZ)
    let entries := ((tocopy + tocopy2) / 8) % 2 ^ 16
    let e1 := if tocopy ≠ 0 then
        [Evt.hdr entries d.width, Evt.copyFrom (d.head * 8) tocopy]
      else []
    let s1 := if tocopy ≠ 0 then HDRSZ + tocopy else 0
    let p1 := if tocopy ≠ 0 then pos0 + HDRSZ + tocopy else pos0
    let e2 := if tocopy2 ≠ 0 then e1 ++ [Evt.copyFrom 0 tocopy2] else e1
    let s2 := if tocopy2 ≠ 0 then s1 + tocopy2 else s1
    let p2 := if tocopy2 ≠ 0 then p1 + tocopy2 else p1
    finishAux len d.tail e2 s2 p2
  else finishAux len d.tail [] 0 pos0

/-- Total number of hotlist data bytes staged by the drain (the chunk
header is not data). -/
def dataSize : List Evt → Nat
  | [] => 0
  | Evt.hdr _ _ :: es => dataSize es
  | Evt.copyFrom _ l :: es => l + dataSize es

/-- The staged data bytes in staging order, reading the device hotlist
as the byte function hot (byte i of entry e is hot (e * 8 + i)). -/
def dataBytes (hot : Nat → Nat) : List Evt → List Nat
  | [] => []
  | Evt.hdr _ _ :: es => dataBytes hot es
  | Evt.copyFrom o l :: es =>
      ((List.range l).map (fun i => hot (o + i))) ++ dataBytes hot es

/-- Number of chunk headers staged. -/
def hdrCount : List Evt → Nat
  | [] => 0
  | Evt.hdr _ _ :: es => hdrCount es + 1
  | Evt.copyFrom _ _ :: es => hdrCount es

/-- Capabilities decoded from the CAP0/CAP1 registers of the instance,
plus the two register block offsets used to size the tracking bitmap. -/
structure Caps where
  epochSup : Bool
  alwaysOnSup : Bool
  randSup : Bool
  granSup : Nat
  dsSup : Nat
  epochMinScale : Nat
  epochMinMult : Nat
  epochMaxScale : Nat
  epochMaxMult : Nat
  bitmapOffset : Nat
  hotlistOffset : Nat
deriving DecidableEq

/-- The user-requested tracking configuration, as decoded from the
perf attr config words by the FIELD_GET calls. -/
structure EvCfg where
  epochType : Nat
  accessType : Nat
  epochScale : Nat
  epochMult : Nat
  randDs : Bool
  dsFactor : Nat
  hotThresh : Nat
  hotGran : Nat
  rangeBase : Nat
  rangeNum : Nat
deriving DecidableEq

/-- The hmu state fields set up by a successful `cxl_hmu_event_init`. -/
structure HmuState where
  reportingMode : Nat
  randomizedDs : Bool
  m2s : Nat
  hotThresh : Nat
  hotGran : Nat
  dsFactor : Nat
  epochScale : Nat
  epochMult : Nat
  rangeBase : Nat
  rangeNum : Nat
deriving DecidableEq

inductive InitRes where
  | ok (hs : HmuState)
  | err (e : Int)
deriving DecidableEq

/-- C ffs: one-based index of the least significant set bit, 0 for 0. -/
def ffs (n : Nat) : Nat :=
  if n = 0 then 0 else Nat.log2 (n ^^^ (n &&& (n - 1))) + 1

/-- Embedding of `cxl_hmu_event_init`, with the validation chain in
source order. The function only reads device registers (the caps); it
performs no device write. Bit tests of the form
`(1 << k) & mask` are modelled as `Nat.testBit mask k`. -/
def cxl_hmu_event_init (caps : Caps) (typeMatch cpuNonneg attachTask : Bool)
    (cfg : EvCfg) : InitRes :=
  if !typeMatch then .err (-ENOENT)
  else if !cpuNonneg then .err (-EOPNOTSUPP)
  else if attachTask then .err (-EOPNOTSUPP)
  else if 2 ≤ cfg.epochType then .err (-EINVAL)
  else if cfg.epochType == 0 && !caps.epochSup then .err (-EOPNOTSUPP)
  else if cfg.epochType == 1 && !caps.alwaysOnSup then .err (-EOPNOTSUPP)
  else if cfg.randDs && !caps.randSup then .err (-EOPNOTSUPP)
  else if cfg.accessType < 1 || 6 < cfg.accessType then .err (-EINVAL)
  else
    let gran := if cfg.hotGran == 0 && caps.granSup != 0 then
        8 + ffs caps.granSup
      else cfg.hotGran
    if gran < 8 then .err (-EINVAL)
    else if !(Nat.testBit caps.granSup (gran - 8)) then .err (-EOPNOTSUPP)
    else if !(Nat.testBit caps.dsSup cfg.dsFactor) &&
        !(cfg.dsFactor == 0 && caps.dsSup != 0) then .err (-EOPNOTSUPP)
    else
      let ds := if Nat.testBit caps.dsSup cfg.dsFactor then cfg.dsFactor
        else ffs caps.dsSup
      let sm := if cfg.epochMult == 0 && cfg.epochScale == 0 then
          (caps.epochMinScale, caps.epochMinMult)
        else (cfg.epochScale, cfg.epochMult)
      if sm.2 == 0 then .err (-EINVAL)
      else
        let epochMin := 10 ^ caps.epochMinScale * caps.epochMinMult
        let epochMax := 10 ^ caps.epochMaxScale * caps.epochMaxMult
        let epoch := 10 ^ sm.1 * sm.2
        if epoch > epochMax || epoch < epochMin then .err (-EINVAL)
        else
          let trackBits := (caps.hotlistOffset - caps.bitmapOffset) * 8
          let rnum := if cfg.rangeNum == 0 then trackBits else cfg.rangeNum
          if trackBits < cfg.rangeBase + rnum then .err (-EINVAL)
          else .ok ⟨cfg.epochType, cfg.randDs, cfg.accessType, cfg.hotThresh,
            gran, ds, sm.1, sm.2, cfg.rangeBase, rnum⟩

/-- A device register write performed by `__cxl_hmu_start`, in order:
the counter reset, the CFG1 tracking parameters, the range bitmap
programming loop, the CFG2 fill threshold, and the CFG0 enable word. -/
inductive RegEvt where
  | resetCounters
  | cfg1 (gran ds mode scale mult : Nat)
  | bitmapProg (base num : Nat)
  | cfg2Fill (thresh : Nat)
  | cfg0Enable (what : Nat) (randDs : Bool) (thresh : Nat)
deriving DecidableEq

inductive StartRes where
  | ok
  | err (e : Int)
deriving DecidableEq

/-- Embedding of `__cxl_hmu_start`: result plus the device writes it
performed, in order. Parameters model the collaborators: whether the
instance is already enabled, whether `perf_aux_output_begin` succeeds,
the two status polls, the counter width reported by the status
register after CFG1 is programmed, and the hotlist capacity. The
threshold check `hot_thresh >= (1 << (64 - width))` is modelled as the
comparison with 2 ^ (64 - width). -/
def cxl_hmu_start_model (hs : HmuState) (enabled auxOk poll1Ok poll2Ok : Bool)
    (width listLen : Nat) : StartRes × List RegEvt :=
  if enabled then (.err (-EBUSY), [])
  else if !auxOk then (.err (-EINVAL), [])
  else
    let w1 : List RegEvt := [RegEvt.resetCounters]
    if !poll1Ok then (.err (-ETIMEDOUT), w1)
    else
      let w2 := w1 ++ [RegEvt.cfg1 hs.hotGran hs.dsFactor hs.reportingMode
        hs.epochScale hs.epochMult]
      let w3 := w2 ++ [RegEvt.bitmapProg hs.rangeBase hs.rangeNum]
      let w4 := w3 ++ [RegEvt.cfg2Fill (listLen / 2)]
      if 2 ^ (64 - width) ≤ hs.hotThresh then (.err (-EINVAL), w4)
      else
        let w5 := w4 ++ [RegEvt.cfg0Enable hs.m2s hs.randomizedDs hs.hotThresh]
        if !poll2Ok then (.err (-ETIMEDOUT), w5)
        else (.ok, w5)

/-- Device cursors with two pending entries (head 0, tail 2) in an
8 entry hotlist, counter width 16. -/
def c6dev : DevState := ⟨0, 2, 8, 16⟩

/-- Wrapped cursors of the spec example: head 6, tail 2, capacity 8. -/
def c5dev : DevState := ⟨6, 2, 8, 16⟩

/-- Concrete capabilities: both modes and randomized downsampling
supported, granularity mask bit 4 (4 KiB), downsampling mask bit 0,
epoch range 10 to 1000000 units, 2048 tracking bitmap bits. -/
def c8caps : Caps := ⟨true, true, true, 16, 1, 1, 1, 4, 100, 16, 272⟩

/-- A requested configuration accepted by every `cxl_hmu_event_init`
check, with a hotness threshold of 2 ^ 24. -/
def c8cfg : EvCfg := ⟨0, 6, 2, 1, false, 0, 16777216, 12, 0, 4⟩

/-- The hmu state `cxl_hmu_event_init` derives from c8caps and c8cfg. -/
def c8hs : HmuState := ⟨0, false, 6, 16777216, 12, 0, 2, 1, 0, 4⟩

end CxlHmuModel

namespace KpromotedModel

theorem promoted_iff_classify (cfg : Config) (env : AccessEnv) (now : Nat)
    (phi : HotnessInfo) :
    page_should_be_promoted cfg env now phi =
      (classify cfg env now phi == Decision.promote) := by
  unfold page_should_be_promoted classify
  repeat' split
  all_goals rfl

/-- C1: code bug. The claim says that within one window the stored
frequency equals the number of eligible calls. The code instead
evaluates the window test with the operands swapped
(`phi->last_update - now` instead of `now - phi->last_update`, which
wraps in unsigned arithmetic for any later-time access) and the
creation path falls through into the increment. Evaluating the model:
one eligible call on an empty table yields frequency 2 (claim: 1) and
a second in-window call at the next jiffy yields frequency 1
(claim: 2). -/
theorem c1_code_bug :
    (run cfgC [Op.access envC true 1 2 0 100] (emptyTable 16)).map
        (fun t => (tableRecords t).map (fun r => r.frequency)) = some [2] ∧
    (run cfgC [Op.access envC true 1 2 0 100, Op.access envC true 1 2 0 101]
        (emptyTable 16)).map
        (fun t => (tableRecords t).map (fun r => r.frequency)) = some [1] := by
  decide

/-- C7: code bug. The claim says an allocation failure inside
record_access is non-fatal: access dropped, table unchanged, lock
released, normal return. In the code `kpromoted_lookup` returns
`ERR_PTR(-ENOMEM)` on allocation failure but the caller tests
`if (!phi)`, which an error pointer passes, so the error pointer is
dereferenced: the model evaluates to a crash on the allocation-failure
path. -/
theorem c7_code_bug :
    kpromoted_record_access cfgC envC false 5 2 0 100 (emptyTable 16) =
      RAOut.crash (emptyTable 16) := by
  decide

/-- C10: code bug. The claim says every input makes
kpromoted_record_access return 0, explicitly including the
allocation-failure path. On that path the code never returns: the
`if (!phi)` test does not match the error pointer and the subsequent
field store dereferences it. -/
theorem c10_code_bug :
    kpromoted_record_access cfgC envC false 9 3 1 200 (emptyTable 16) =
      RAOut.crash (emptyTable 16) ∧
    kpromoted_record_access cfgC envC false 9 3 1 200 (emptyTable 16) ≠
      RAOut.ret 0 (emptyTable 16) := by
  decide

/-- C3 counterexample: the claim says a PROMOTE record is removed from
the table whether the migrate call succeeded or failed. With a
promotable record for pfn 1 on node 2 and a failing migrator, one
sweep of node 2 issues exactly one migrate call but the record is
still in the table afterwards. -/
theorem c3_counterexample :
    (kpromoted_migrate cfgC envC 2 150 c3t).2 = [(1, 2)] ∧
    (tableRecords (kpromoted_migrate cfgC envC 2 150 c3t).1).map
      (fun r => r.pfn) = [1] := by
  decide

/-- C2: confirmed. For a record whose page is resident and on the LRU,
the sweep-time classification is PROMOTE exactly when frequency is at
least the threshold, now minus last_update is at most twice the window
length, and the candidate node differs from the current node of the
page; when any of the three fails, the classification is one of the
drop variants (wrong tier, stale cold, not-hot cold), never PROMOTE. -/
theorem c2_confirmed (cfg : Config) (env : AccessEnv) (now : Nat)
    (phi : HotnessInfo)
    (hres : env.pageOk phi.pfn = true) (hlru : env.onLru phi.pfn = true) :
    (classify cfg env now phi = Decision.promote ↔
      (cfg.thresh ≤ phi.frequency ∧
       usub now phi.last_update ≤ 2 * cfg.window ∧
       env.folioNid phi.pfn ≠ phi.hot_node)) ∧
    (classify cfg env now phi = Decision.promote ∨
     classify cfg env now phi = Decision.rightNode ∨
     classify cfg env now phi = Decision.coldOld ∨
     classify cfg env now phi = Decision.coldNotAccessed) := by
  unfold classify
  rw [hres, hlru]
  simp only [Bool.not_true, Bool.false_eq_true, if_false]
  by_cases h1 : env.folioNid phi.pfn = phi.hot_node
  · have hb : (env.folioNid phi.pfn == phi.hot_node) = true := beq_iff_eq.mpr h1
    rw [if_pos hb]
    refine ⟨⟨fun h => absurd h (by decide), ?_⟩, Or.inr (Or.inl rfl)⟩
    rintro ⟨-, -, hne⟩
    exact absurd h1 hne
  · have hb : (env.folioNid phi.pfn == phi.hot_node) = false := by
      simpa using h1
    simp only [hb, Bool.false_eq_true, if_false]
    by_cases h2 : usub now phi.last_update > 2 * cfg.window
    · rw [if_pos h2]
      refine ⟨⟨fun h => absurd h (by decide), ?_⟩, Or.inr (Or.inr (Or.inl rfl))⟩
      rintro ⟨-, hle, -⟩
      omega
    · rw [if_neg h2]
      by_cases h3 : phi.frequency < cfg.thresh
      · rw [if_pos h3]
        refine ⟨⟨fun h => absurd h (by decide), ?_⟩,
          Or.inr (Or.inr (Or.inr rfl))⟩
        rintro ⟨hge, -, -⟩
        omega
      · rw [if_neg h3]
        exact ⟨⟨fun _ => ⟨by omega, by omega, h1⟩, fun _ => rfl⟩, Or.inl rfl⟩

/-- Witness for C2 at a concrete input: record pfn 1, frequency 3,
last update 100, candidate node 2; sweep time 150. -/
theorem c2_witness :
    (envC.pageOk 1 = true ∧ envC.onLru 1 = true) ∧
    ((classify cfgC envC 150 ⟨1, 3, 100, 100, 2⟩ = Decision.promote ↔
       (cfgC.thresh ≤ (3 : Nat) ∧
        usub 150 100 ≤ 2 * cfgC.window ∧
        (0 : Int) ≠ (2 : Int))) ∧
     (classify cfgC envC 150 ⟨1, 3, 100, 100, 2⟩ = Decision.promote ∨
      classify cfgC envC 150 ⟨1, 3, 100, 100, 2⟩ = Decision.rightNode ∨
      classify cfgC envC 150 ⟨1, 3, 100, 100, 2⟩ = Decision.coldOld ∨
      classify cfgC envC 150 ⟨1, 3, 100, 100, 2⟩ = Decision.coldNotAccessed)) :=
  ⟨⟨rfl, rfl⟩, c2_confirmed cfgC envC 150 ⟨1, 3, 100, 100, 2⟩ rfl rfl⟩

end KpromotedModel

namespace CxlHmuModel

/-- C6: code bug. The claim (and the comment in the C source) says the
device head register is advanced only past data actually staged, so
unstaged hotlist entries are never freed for overwrite. When the
remaining staging space equals exactly the header size, the drain
copies nothing (tocopy = 0), the full-buffer early return is not taken
because the write cursor did not move, and the head register is still
advanced to tail, freeing the two never-staged entries. -/
theorem c6_code_bug :
    cxl_hmu_update_aux c6dev 4096 4080 =
      { evts := [], size := 0, pos := 4080, full := false,
        headWrite := some 2 } := by
  decide

/-- C8 amended: a hotness threshold too wide for the configured
counter width is rejected at start time with EINVAL, but only after
the counter reset, the CFG1 tracking parameters, the range bitmap and
the fill threshold registers have been written; the rejected request
never writes the enable word. (Granularity, epoch-length and access
type violations are rejected earlier, in cxl_hmu_event_init, which
performs no device write.) -/
theorem c8_amended (hs : HmuState) (poll2Ok : Bool) (width listLen : Nat)
    (h : 2 ^ (64 - width) ≤ hs.hotThresh) :
    cxl_hmu_start_model hs false true true poll2Ok width listLen =
      (StartRes.err (-EINVAL),
       [RegEvt.resetCounters,
        RegEvt.cfg1 hs.hotGran hs.dsFactor hs.reportingMode hs.epochScale
          hs.epochMult,
        RegEvt.bitmapProg hs.rangeBase hs.rangeNum,
        RegEvt.cfg2Fill (listLen / 2)]) := by
  unfold cxl_hmu_start_model
  simp [h]

/-- Witness for C8 at a concrete input: the state derived from c8cfg
(threshold 2 ^ 24) started on a device reporting counter width 40. -/
theorem c8_witness :
    2 ^ (64 - 40) ≤ c8hs.hotThresh ∧
    cxl_hmu_start_model c8hs false true true true 40 1024 =
      (StartRes.err (-EINVAL),
       [RegEvt.resetCounters,
        RegEvt.cfg1 c8hs.hotGran c8hs.dsFactor c8hs.reportingMode
          c8hs.epochScale c8hs.epochMult,
        RegEvt.bitmapProg c8hs.rangeBase c8hs.rangeNum,
        RegEvt.cfg2Fill (1024 / 2)]) :=
  ⟨by decide, c8_amended c8hs true 40 1024 (by decide)⟩

/-- C8 counterexample: the claim says a rejected tracking
configuration is never partially applied (no device registers left
changed). The configuration c8cfg passes every event_init check, then
start rejects it (threshold 2 ^ 24 does not fit under counter width
40) with a nonempty list of device writes already performed. -/
theorem c8_counterexample :
    cxl_hmu_event_init c8caps true true false c8cfg = InitRes.ok c8hs ∧
    (cxl_hmu_start_model c8hs false true true true 40 1024).1 =
      StartRes.err (-EINVAL) ∧
    (cxl_hmu_start_model c8hs false true true true 40 1024).2 ≠ [] := by
  decide

end CxlHmuModel

namespace KpromotedModel

theorem sweepBucket_spec (cfg : Config) (env : AccessEnv) (nid : Int)
    (now : Nat) (l : List HotnessInfo) :
    (sweepBucket cfg env nid now l).1 =
      l.filter (keepAfterSweep cfg env nid now) ∧
    (sweepBucket cfg env nid now l).2 =
      (l.filter (promotedInSweep cfg env nid now)).map
        (fun r => (r.pfn, r.hot_node)) := by
  induction l with
  | nil => exact ⟨rfl, rfl⟩
  | cons phi rest ih =>
    obtain ⟨ih1, ih2⟩ := ih
    by_cases h1 : (phi.hot_node == nid) = true
    · by_cases h2 : page_should_be_promoted cfg env now phi = true
      · by_cases h3 : (env.migrateRet phi.pfn phi.hot_node == 0) = true
        · simp [sweepBucket, keepAfterSweep, promotedInSweep, h1, h2, h3,
            List.filter_cons, ih1, ih2, bne]
        · rw [Bool.not_eq_true] at h3
          simp [sweepBucket, keepAfterSweep, promotedInSweep, h1, h2, h3,
            List.filter_cons, ih1, ih2, bne]
      · rw [Bool.not_eq_true] at h2
        simp [sweepBucket, keepAfterSweep, promotedInSweep, h1, h2,
          List.filter_cons, ih1, ih2, bne]
    · rw [Bool.not_eq_true] at h1
      simp [sweepBucket, keepAfterSweep, promotedInSweep, h1,
        List.filter_cons, ih1, ih2, bne]

/-- C3 amended: during one sweep of node nid, exactly the records that
belong to nid and pass page_should_be_promoted produce a migrate call
(one call each, with their pfn and candidate node, in table order);
a promoted record is removed exactly when its migrate call succeeded,
a record that failed to migrate is kept (to be retried on a later
sweep), and every other record of the node is removed without any
migrate call. -/
theorem c3_amended (cfg : Config) (env : AccessEnv) (nid : Int) (now : Nat)
    (t : Table) :
    (kpromoted_migrate cfg env nid now t).2 =
      ((tableRecords t).filter (promotedInSweep cfg env nid now)).map
        (fun r => (r.pfn, r.hot_node)) ∧
    tableRecords (kpromoted_migrate cfg env nid now t).1 =
      (tableRecords t).filter (keepAfterSweep cfg env nid now) := by
  induction t with
  | nil => exact ⟨rfl, rfl⟩
  | cons b bs ih =>
    obtain ⟨ih1, ih2⟩ := ih
    have hb := sweepBucket_spec cfg env nid now b
    simp only [tableRecords] at ih1 ih2
    simp only [kpromoted_migrate, tableRecords, List.flatten_cons,
      List.filter_append, List.map_append, hb.1, hb.2, ih1, ih2]
    exact ⟨trivial, trivial⟩

/-- Witness for C3 at a concrete input: the sweep of node 2 over the
table c3t with a failing migrator. -/
theorem c3_witness :
    (kpromoted_migrate cfgC envC 2 150 c3t).2 =
      ((tableRecords c3t).filter (promotedInSweep cfgC envC 2 150)).map
        (fun r => (r.pfn, r.hot_node)) ∧
    tableRecords (kpromoted_migrate cfgC envC 2 150 c3t).1 =
      (tableRecords c3t).filter (keepAfterSweep cfgC envC 2 150) :=
  c3_amended cfgC envC 2 150 c3t

end KpromotedModel

namespace KpromotedModel

theorem usub_of_le {a b : Nat} (hb : b ≤ a) (ha : a < M64) : usub a b = a - b := by
  have h64 : M64 = 18446744073709551616 := by norm_num [M64]
  rw [h64] at ha
  unfold usub
  rw [h64]
  omega

end KpromotedModel

namespace CxlHmuModel

open KpromotedModel (M64 usub usub_of_le)

theorem i2sz_natCast (n : Nat) (h : n < M64) : i2sz (n : Int) = n := by
  unfold i2sz
  rw [Int.emod_eq_of_lt (Int.natCast_nonneg n) (by exact_mod_cast h)]
  simp

/-- C5: confirmed. For a wrapped hotlist (tail < head) with enough
staging space, one drain stages a single header whose entry count is
(top - head) + tail, then the segment from head to the buffer top,
then the segment from the buffer start to tail, in that order; the
staged data byte count is ((top - head) + tail) * 8 and the staged
bytes are exactly the hotlist bytes of entries head..top-1 followed by
entries 0..tail-1. For head 6, tail 2, capacity 8 this is the entry
order 6, 7, 0, 1. -/
theorem c5_confirmed (d : DevState) (len pos0 : Nat) (hot : Nat → Nat)
    (hth : d.tail < d.head) (hht : d.head < d.top) (htop : d.top < 2 ^ 16)
    (hspace : pos0 + HDRSZ + ((d.top - d.head) + d.tail) * 8 ≤ len)
    (hlen : len < M64) :
    (cxl_hmu_update_aux d len pos0).evts =
      [Evt.hdr ((d.top - d.head) + d.tail) d.width,
       Evt.copyFrom (d.head * 8) ((d.top - d.head) * 8)] ++
      (if d.tail = 0 then [] else [Evt.copyFrom 0 (d.tail * 8)]) ∧
    dataSize (cxl_hmu_update_aux d len pos0).evts =
      ((d.top - d.head) + d.tail) * 8 ∧
    hdrCount (cxl_hmu_update_aux d len pos0).evts = 1 ∧
    dataBytes hot (cxl_hmu_update_aux d len pos0).evts =
      ((List.range ((d.top - d.head) * 8)).map (fun i => hot (d.head * 8 + i)))
        ++ ((List.range (d.tail * 8)).map (fun i => hot i)) := by
  have e2 : M64 = 18446744073709551616 := by norm_num [KpromotedModel.M64]
  have e16 : (2 : Nat) ^ 16 = 65536 := by norm_num
  simp only [HDRSZ] at hspace
  have h1 : usub len pos0 = len - pos0 := usub_of_le (by omega) hlen
  have h2 : usub (len - pos0) 16 = len - pos0 - 16 :=
    usub_of_le (by omega) (by omega)
  have hcast : ((d.top : Int) - (d.head : Int)) * 8 =
      (((d.top - d.head) * 8 : Nat) : Int) := by
    rw [Nat.cast_mul, Nat.cast_sub (le_of_lt hht)]
    norm_num
  have hbound : (d.top - d.head) * 8 < M64 := by omega
  have hi : i2sz (((d.top : Int) - (d.head : Int)) * 8) =
      (d.top - d.head) * 8 := by
    rw [hcast]
    exact i2sz_natCast _ hbound
  have hmin1 : Nat.min ((d.top - d.head) * 8) (len - pos0 - 16) =
      (d.top - d.head) * 8 := Nat.min_eq_left (by omega)
  have h3 : usub (len - pos0) ((d.top - d.head) * 8) =
      len - pos0 - (d.top - d.head) * 8 := usub_of_le (by omega) (by omega)
  have h4 : usub (len - pos0 - (d.top - d.head) * 8) 16 =
      len - pos0 - (d.top - d.head) * 8 - 16 :=
    usub_of_le (by omega) (by omega)
  have hmin2 : Nat.min (d.tail * 8) (len - pos0 - (d.top - d.head) * 8 - 16) =
      d.tail * 8 := Nat.min_eq_left (by omega)
  have hne1 : (d.top - d.head) * 8 ≠ 0 := by omega
  have hentries : ((d.top - d.head) * 8 + d.tail * 8) / 8 % 2 ^ 16 =
      (d.top - d.head) + d.tail := by
    have hmul : (d.top - d.head) * 8 + d.tail * 8 =
        ((d.top - d.head) + d.tail) * 8 := by ring
    rw [hmul, Nat.mul_div_cancel _ (by norm_num)]
    exact Nat.mod_eq_of_lt (by omega)
  have hevts : (cxl_hmu_update_aux d len pos0).evts =
      [Evt.hdr ((d.top - d.head) + d.tail) d.width,
       Evt.copyFrom (d.head * 8) ((d.top - d.head) * 8)] ++
      (if d.tail = 0 then [] else [Evt.copyFrom 0 (d.tail * 8)]) := by
    unfold cxl_hmu_update_aux
    rw [if_neg (by omega : ¬ d.head < d.tail), if_pos hth]
    simp only [HDRSZ, finishAux, h1, hi, h2, hmin1, h3, h4, hmin2, hentries,
      hne1]
    have hne0 : ¬ (d.top - d.head = 0) := by omega
    by_cases htail : d.tail = 0
    · simp [htail, hne0]
    · have hm : d.tail * 8 ≠ 0 := by omega
      simp [htail, hm, hne0]
  refine ⟨hevts, ?_, ?_, ?_⟩
  · rw [hevts]
    by_cases htail : d.tail = 0
    · simp [htail, dataSize]
    · simp [htail, dataSize]
      ring
  · rw [hevts]
    by_cases htail : d.tail = 0
    · simp [htail, hdrCount]
    · simp [htail, hdrCount]
  · rw [hevts]
    by_cases htail : d.tail = 0
    · simp [htail, dataBytes]
    · simp [htail, dataBytes]

/-- Witness for C5 at the spec example: head 6, tail 2, capacity 8,
an empty 4096 byte staging buffer, hotlist bytes read through the
identity function. -/
theorem c5_witness :
    ((2 : Nat) < 6 ∧ (6 : Nat) < 8 ∧ (8 : Nat) < 2 ^ 16 ∧
     0 + HDRSZ + ((8 - 6) + 2) * 8 ≤ 4096 ∧ 4096 < M64) ∧
    ((cxl_hmu_update_aux c5dev 4096 0).evts =
      [Evt.hdr ((8 - 6) + 2) 16, Evt.copyFrom (6 * 8) ((8 - 6) * 8)] ++
      (if (2 : Nat) = 0 then [] else [Evt.copyFrom 0 (2 * 8)]) ∧
     dataSize (cxl_hmu_update_aux c5dev 4096 0).evts = ((8 - 6) + 2) * 8 ∧
     hdrCount (cxl_hmu_update_aux c5dev 4096 0).evts = 1 ∧
     dataBytes (fun i => i) (cxl_hmu_update_aux c5dev 4096 0).evts =
       ((List.range ((8 - 6) * 8)).map (fun i => (fun i => i) (6 * 8 + i)))
         ++ ((List.range (2 * 8)).map (fun i => (fun i => i) i))) :=
  ⟨⟨by decide, by decide, by decide, by decide, by decide⟩,
   c5_confirmed c5dev 4096 0 (fun i => i) (by decide) (by decide) (by decide)
     (by decide) (by decide)⟩

end CxlHmuModel


namespace IbsModel

theorem getD_append_length {α : Type} (a b : List α) (d : α) :
    (a ++ b).getD a.length d = b.getD 0 d := by
  induction a with
  | nil => rfl
  | cons x xs ih => simpa using ih

theorem set_append_length {α : Type} (a b : List α) (x : α) :
    (a ++ b).set a.length x = a ++ b.set 0 x := by
  induction a with
  | nil => rfl
  | cons y ys ih => simpa using ih

theorem push_accept (p : Nat) (n : Int) (tm : Nat) (s : List IbsSample)
    (h : Nat) (hh : h < 49) :
    ibs_push_sample p n tm ⟨s, h, 0⟩ =
      (1, ⟨s.set h { s.getD h zeroSample with pfn := p, time := tm },
           h + 1, 0⟩) := by
  unfold ibs_push_sample IBS_NR_SAMPLES
  have h1 : ¬ (50 ≤ h + 1) := by omega
  simp [h1]

theorem push_reject (p : Nat) (n : Int) (tm : Nat) (s : List IbsSample) :
    ibs_push_sample p n tm ⟨s, 49, 0⟩ = (0, ⟨s, 49, 0⟩) := by
  unfold ibs_push_sample IBS_NR_SAMPLES
  norm_num

theorem pushMany_go (L : List (Nat × Int × Nat)) : ∀ (s : List IbsSample)
    (h : Nat), h ≤ 49 →
    pushMany L ⟨s, h, 0⟩ =
      (L.length - (49 - h),
       ⟨writeSeq s h (L.take (49 - h)), min (h + L.length) 49, 0⟩) := by
  induction L with
  | nil =>
    intro s h hh
    have hm : min (h + 0) 49 = h := by omega
    simp only [pushMany, List.length_nil, List.take_nil, writeSeq, hm,
      Nat.zero_sub]
  | cons x xs ih =>
    intro s h hh
    by_cases hlt : h < 49
    · have hp := push_accept x.1 x.2.1 x.2.2 s h hlt
      simp only [pushMany, hp]
      rw [ih _ (h + 1) (by omega)]
      have hd : (if (1 : Nat) == 0 then 1 else 0) +
          (xs.length - (49 - (h + 1))) = (x :: xs).length - (49 - h) := by
        simp only [List.length_cons]
        norm_num
        omega
      have hw : writeSeq s h ((x :: xs).take (49 - h)) =
          writeSeq
            (s.set h { s.getD h zeroSample with pfn := x.1, time := x.2.2 })
            (h + 1) (xs.take (49 - (h + 1))) := by
        obtain ⟨m, hm49⟩ : ∃ m, 49 - h = m + 1 := ⟨49 - (h + 1), by omega⟩
        rw [hm49, List.take_succ_cons, writeSeq,
          show m = 49 - (h + 1) from by omega]
      have hm : min (h + 1 + xs.length) 49 = min (h + (x :: xs).length) 49 := by
        simp only [List.length_cons]
        omega
      rw [hd, hw, hm]
    · have h49 : h = 49 := by omega
      subst h49
      have hp := push_reject x.1 x.2.1 x.2.2 s
      simp only [pushMany, hp]
      rw [ih s 49 (by omega)]
      have hd : (if (0 : Nat) == 0 then 1 else 0) + (xs.length - (49 - 49)) =
          (x :: xs).length - (49 - 49) := by
        simp only [List.length_cons]
        norm_num
        omega
      rw [hd]
      have hm : min (49 + xs.length) 49 = min (49 + (x :: xs).length) 49 := by
        simp only [List.length_cons]
        omega
      have ht : (49 : Nat) - 49 = 0 := by norm_num
      rw [hm, ht, List.take_zero, List.take_zero]

theorem writeSeq_replicate (E : List (Nat × Int × Nat)) :
    ∀ (pre : List IbsSample) (m : Nat), E.length ≤ m →
    writeSeq (pre ++ List.replicate m zeroSample) pre.length E =
      (pre ++ E.map (fun x => IbsSample.mk x.1 x.2.2 0)) ++
        List.replicate (m - E.length) zeroSample := by
  induction E with
  | nil =>
    intro pre m hlen
    simp [writeSeq]
  | cons x xs ih =>
    intro pre m hlen
    simp only [List.length_cons] at hlen
    obtain ⟨k, hk⟩ : ∃ k, m = k + 1 := ⟨m - 1, by omega⟩
    subst hk
    rw [writeSeq, List.replicate_succ, getD_append_length, set_append_length]
    simp only [List.getD_cons_zero, List.set]
    have hw : ({ zeroSample with pfn := x.1, time := x.2.2 } : IbsSample) =
        IbsSample.mk x.1 x.2.2 0 := rfl
    rw [hw]
    rw [show pre ++ IbsSample.mk x.1 x.2.2 0 :: List.replicate k zeroSample =
      (pre ++ [IbsSample.mk x.1 x.2.2 0]) ++ List.replicate k zeroSample from by
        simp]
    rw [show pre.length + 1 = (pre ++ [IbsSample.mk x.1 x.2.2 0]).length from by
      simp]
    rw [ih (pre ++ [IbsSample.mk x.1 x.2.2 0]) k (by omega)]
    simp only [List.append_assoc, List.cons_append, List.nil_append,
      List.map_cons, List.length_cons]
    rw [show k + 1 - (xs.length + 1) = k - xs.length from by omega]

theorem popN_spec (k : Nat) : ∀ (s : List IbsSample) (h t : Nat),
    50 ≤ s.length → t ≤ h → h ≤ 49 → h - t ≤ k →
    popN k ⟨s, h, t⟩ = (s.drop t).take (h - t) := by
  induction k with
  | zero =>
    intro s h t hs hth hh hk
    rw [show h - t = 0 from by omega]
    simp [popN]
  | succ k ih =>
    intro s h t hs hth hh hk
    by_cases hht : h = t
    · rw [show h - t = 0 from by omega]
      simp [popN, ibs_pop_sample, hht]
    · have htlt : t < h := by omega
      have hbne : (h == t) = false := by
        simp [hht]
      have hnext : ¬ (50 ≤ t + 1) := by omega
      have hpop : ibs_pop_sample ⟨s, h, t⟩ =
          some (s.getD t zeroSample, ⟨s, h, t + 1⟩) := by
        unfold ibs_pop_sample IBS_NR_SAMPLES
        simp [hbne, hnext]
      rw [popN, hpop]
      show s.getD t zeroSample :: popN k ⟨s, h, t + 1⟩ =
        (s.drop t).take (h - t)
      rw [ih s h (t + 1) hs (by omega) hh (by omega)]
      have ht50 : t < s.length := by omega
      rw [show h - t = (h - (t + 1)) + 1 from by omega]
      rw [List.drop_eq_getElem_cons ht50, List.take_succ_cons]
      congr 1
      exact List.getD_eq_getElem s zeroSample ht50

end IbsModel

namespace IbsModel

/-- C4 amended: the 50 slot ring keeps one slot empty, so a burst of
N pushes with no pops accepts the first 49 in order and rejects
exactly N - 49; popping then returns the 49 retained records in FIFO
order with the pushed pfn and time preserved, but the observing node
is not stored by `ibs_push_sample`, so every popped record carries the
pre-existing slot nid (0 on a freshly zeroed ring), not the pushed
one. -/
theorem c4_amended (L : List (Nat × Int × Nat)) (hlen : 49 ≤ L.length) :
    (pushMany L initRing).1 = L.length - 49 ∧
    popN 49 (pushMany L initRing).2 =
      (L.take 49).map (fun x => IbsSample.mk x.1 x.2.2 0) := by
  have hgo := pushMany_go L (List.replicate 50 zeroSample) 0 (by omega)
  have hinit : initRing = ⟨List.replicate 50 zeroSample, 0, 0⟩ := rfl
  rw [hinit, hgo]
  constructor
  · show L.length - (49 - 0) = L.length - 49
    norm_num
  · show popN 49 ⟨writeSeq (List.replicate 50 zeroSample) 0 (L.take (49 - 0)),
      min (0 + L.length) 49, 0⟩ = _
    have hmin : min (0 + L.length) 49 = 49 := by omega
    have htk : (L.take 49).length = 49 := by
      simp only [List.length_take]
      omega
    have hw := writeSeq_replicate (L.take 49) [] 50 (by omega)
    simp only [List.nil_append, List.length_nil] at hw
    rw [show (49 : Nat) - 0 = 49 from rfl, hmin, hw, htk]
    have hA : ((L.take 49).map (fun x => IbsSample.mk x.1 x.2.2 0)).length =
        49 := by
      rw [List.length_map, htk]
    rw [popN_spec 49 _ 49 0
      (by simp only [List.length_append, List.length_replicate, hA]; omega)
      (by omega) (by omega) (by omega)]
    rw [show (49 : Nat) - 0 = 49 from rfl, List.drop_zero,
      List.take_append_eq_append_take, hA]
    have htake : ((L.take 49).map (fun x => IbsSample.mk x.1 x.2.2 0)).take 49 =
        (L.take 49).map (fun x => IbsSample.mk x.1 x.2.2 0) :=
      List.take_of_length_le (by rw [hA])
    rw [htake]
    simp

/-- Witness for C4 at a concrete input: the burst c4L of 50 samples. -/
theorem c4_witness :
    49 ≤ c4L.length ∧
    ((pushMany c4L initRing).1 = c4L.length - 49 ∧
     popN 49 (pushMany c4L initRing).2 =
       (c4L.take 49).map (fun x => IbsSample.mk x.1 x.2.2 0)) :=
  ⟨by decide, c4_amended c4L (by decide)⟩

/-- C4 counterexample: the claim says pushing N greater than the
50 slot capacity rejects exactly N - 50 pushes and that a popped
record equals the pushed one in page_id, observing_node and
timestamp. Pushing the 50 record burst c4L (observing node 7) onto a
fresh ring rejects 1 push, not 50 - 50 = 0, and the first popped
record is pfn 0, time 100, nid 0: the nid differs from the pushed 7
because `ibs_push_sample` never stores its nid argument. -/
theorem c4_counterexample :
    (pushMany c4L initRing).1 ≠ 50 - 50 ∧
    popN 1 (pushMany c4L initRing).2 = [⟨0, 100, 0⟩] ∧
    (⟨0, 100, 0⟩ : IbsSample) ≠ ⟨0, 100, 7⟩ := by
  decide

end IbsModel

namespace KpromotedModel

theorem modifyFirst_map_pfn (p : HotnessInfo → Bool)
    (f : HotnessInfo → HotnessInfo) (hf : ∀ r, (f r).pfn = r.pfn) :
    ∀ l : List HotnessInfo, pfns (modifyFirst p f l) = pfns l := by
  intro l
  induction l with
  | nil => rfl
  | cons x xs ih =>
    by_cases hx : p x
    · simp [modifyFirst, hx, pfns, hf]
    · simp only [modifyFirst, hx, if_false, Bool.false_eq_true]
      simp only [pfns, List.map_cons] at ih ⊢
      rw [ih]

theorem phiUpdate_pfn (cfg : Config) (nid : Int) (now : Nat)
    (r : HotnessInfo) : (phiUpdate cfg nid now r).pfn = r.pfn := by
  unfold phiUpdate
  split <;> rfl

theorem bucketOK_of_pfns_eq (cfg : Config) (i : Nat)
    (l1 l2 : List HotnessInfo) (hp : pfns l1 = pfns l2)
    (h : bucketOK cfg i l2) : bucketOK cfg i l1 := by
  unfold bucketOK at *
  rw [hp]
  exact h

theorem getD_set_self {α : Type} (l : List α) (n : Nat) (x : α) (d : α)
    (h : n < l.length) : (l.set n x).getD n d = x := by
  induction l generalizing n with
  | nil => simp at h
  | cons a as ih =>
    cases n with
    | zero => rfl
    | succ m =>
      simp only [List.length_cons] at h
      simpa using ih m (by omega)

theorem getD_set_ne {α : Type} (l : List α) (n i : Nat) (x : α) (d : α)
    (h : n ≠ i) : (l.set n x).getD i d = l.getD i d := by
  induction l generalizing n i with
  | nil => rfl
  | cons a as ih =>
    cases n with
    | zero =>
      cases i with
      | zero => exact absurd rfl h
      | succ j => rfl
    | succ m =>
      cases i with
      | zero => rfl
      | succ j => simpa using ih m j (by omega)

end KpromotedModel

namespace KpromotedModel

theorem WF_set_bucket (cfg : Config) (t : Table) (bkt : Nat)
    (newB : List HotnessInfo) (hwf : WF cfg t) (hB : bucketOK cfg bkt newB) :
    WF cfg (t.set bkt newB) := by
  obtain ⟨hlen, hok⟩ := hwf
  refine ⟨by simpa using hlen, fun i => ?_⟩
  by_cases hib : bkt = i
  · subst hib
    by_cases hlt : bkt < t.length
    · rw [getD_set_self t bkt newB [] hlt]
      exact hB
    · rw [List.set_eq_of_length_le (by omega)]
      exact hok bkt
  · rw [getD_set_ne t bkt i newB [] hib]
    exact hok i

theorem WF_modify (cfg : Config) (t : Table) (pfn : Nat)
    (f : HotnessInfo → HotnessInfo) (hf : ∀ r, (f r).pfn = r.pfn)
    (hwf : WF cfg t) :
    WF cfg (t.set (hmod cfg pfn)
      (modifyFirst (fun r => r.pfn == pfn) f (t.getD (hmod cfg pfn) []))) :=
  WF_set_bucket cfg t _ _ hwf
    (bucketOK_of_pfns_eq cfg _ _ _
      (modifyFirst_map_pfn _ f hf _) (hwf.2 _))

theorem WF_insert (cfg : Config) (t : Table) (pfn now : Nat) (hwf : WF cfg t)
    (hnone : (t.getD (hmod cfg pfn) []).find? (fun r => r.pfn == pfn) = none) :
    WF cfg (t.set (hmod cfg pfn)
      ((⟨pfn, 1, now, now, 0⟩ : HotnessInfo) :: t.getD (hmod cfg pfn) [])) := by
  apply WF_set_bucket cfg t _ _ hwf
  constructor
  · intro p hp
    simp only [pfns, List.map_cons, List.mem_cons] at hp
    rcases hp with h | h
    · rw [h]
    · exact (hwf.2 _).1 p h
  · refine List.nodup_cons.mpr ⟨?_, (hwf.2 _).2⟩
    intro hmem
    simp only [pfns, List.mem_map] at hmem
    obtain ⟨r, hr, hrp⟩ := hmem
    have hno := List.find?_eq_none.mp hnone r hr
    simp [hrp] at hno

theorem WF_record_access (cfg : Config) (env : AccessEnv) (allocOk : Bool)
    (pfn : Nat) (nid : Int) (src : Nat) (now : Nat) (t : Table) (v : Int)
    (t2 : Table) (hwf : WF cfg t)
    (h : kpromoted_record_access cfg env allocOk pfn nid src now t =
      RAOut.ret v t2) : WF cfg t2 := by
  simp only [kpromoted_record_access] at h
  by_cases h1 : env.toptier pfn = true
  · rw [if_pos h1] at h
    injection h with hv ht
    subst ht
    exact hwf
  · rw [if_neg h1] at h
    by_cases h2 : (!(env.pageOk pfn)) = true
    · rw [if_pos h2] at h
      injection h with hv ht
      subst ht
      exact hwf
    · rw [if_neg h2] at h
      by_cases h3 : (!(env.onLru pfn)) = true
      · rw [if_pos h3] at h
        injection h with hv ht
        subst ht
        exact hwf
      · rw [if_neg h3] at h
        cases hf : (t.getD (hmod cfg pfn) []).find? (fun r => r.pfn == pfn) with
        | some phi =>
          have hl : kpromoted_lookup allocOk pfn now (hmod cfg pfn) t =
              (LookupRes.found phi, t) := by
            simp only [kpromoted_lookup, hf]
          rw [hl] at h
          injection h with hv ht
          subst ht
          exact WF_modify cfg t pfn _ (phiUpdate_pfn cfg nid now) hwf
        | none =>
          cases hao : allocOk with
          | false =>
            have hl : kpromoted_lookup allocOk pfn now (hmod cfg pfn) t =
                (LookupRes.nomem, t) := by
              simp only [kpromoted_lookup, hf, hao]
              simp
            rw [hl] at h
            exact absurd h (by simp)
          | true =>
            have hl : kpromoted_lookup allocOk pfn now (hmod cfg pfn) t =
                (LookupRes.created ⟨pfn, 1, now, now, 0⟩,
                 t.set (hmod cfg pfn)
                   ((⟨pfn, 1, now, now, 0⟩ : HotnessInfo) ::
                     t.getD (hmod cfg pfn) [])) := by
              simp only [kpromoted_lookup, hf, hao]
              simp
            rw [hl] at h
            injection h with hv ht
            subst ht
            exact WF_modify cfg _ pfn _ (phiUpdate_pfn cfg nid now)
              (WF_insert cfg t pfn now hwf hf)

theorem sweep_fst_map (cfg : Config) (env : AccessEnv) (nid : Int) (now : Nat) :
    ∀ t : Table, (kpromoted_migrate cfg env nid now t).1 =
      t.map (fun b => b.filter (keepAfterSweep cfg env nid now)) := by
  intro t
  induction t with
  | nil => rfl
  | cons b bs ih =>
    simp only [kpromoted_migrate, List.map_cons,
      (sweepBucket_spec cfg env nid now b).1, ih]

theorem getD_map_bucket (k : HotnessInfo → Bool) :
    ∀ (t : Table) (i : Nat),
    (t.map (fun b => b.filter k)).getD i [] = (t.getD i []).filter k := by
  intro t
  induction t with
  | nil => intro i; rfl
  | cons b bs ih =>
    intro i
    cases i with
    | zero => rfl
    | succ j => simpa using ih j

theorem WF_sweep (cfg : Config) (env : AccessEnv) (nid : Int) (now : Nat)
    (t : Table) (hwf : WF cfg t) :
    WF cfg (kpromoted_migrate cfg env nid now t).1 := by
  rw [sweep_fst_map]
  refine ⟨by simp [hwf.1], fun i => ?_⟩
  rw [getD_map_bucket]
  obtain ⟨h1, h2⟩ := hwf.2 i
  constructor
  · intro p hp
    simp only [pfns, List.mem_map] at hp
    obtain ⟨r, hr, hrp⟩ := hp
    refine h1 p ?_
    simp only [pfns, List.mem_map]
    exact ⟨r, List.mem_of_mem_filter hr, hrp⟩
  · exact List.Nodup.sublist ((List.filter_sublist _).map _) h2

theorem runState_none (cfg : Config) : ∀ ops : List Op,
    runState cfg none ops = none := by
  intro ops
  induction ops with
  | nil => rfl
  | cons op ops ih =>
    rw [runState]
    have : runOp cfg none op = none := by
      cases op <;> rfl
    rw [this]
    exact ih

theorem WF_runState (cfg : Config) : ∀ (ops : List Op) (t t2 : Table),
    WF cfg t → runState cfg (some t) ops = some t2 → WF cfg t2 := by
  intro ops
  induction ops with
  | nil =>
    intro t t2 hwf h
    injection h with h
    subst h
    exact hwf
  | cons op ops ih =>
    intro t t2 hwf h
    rw [runState] at h
    cases op with
    | access env allocOk pfn nid src now =>
      cases hra : kpromoted_record_access cfg env allocOk pfn nid src now t with
      | ret v t1 =>
        simp only [runOp, hra] at h
        exact ih t1 t2
          (WF_record_access cfg env allocOk pfn nid src now t v t1 hwf hra) h
      | crash t1 =>
        simp only [runOp, hra] at h
        rw [runState_none] at h
        exact absurd h (by simp)
    | sweep env nid now =>
      simp only [runOp] at h
      exact ih _ t2 (WF_sweep cfg env nid now t hwf) h

end KpromotedModel

namespace KpromotedModel

theorem countP_le_one_of_nodup (l : List HotnessInfo) (p : Nat)
    (h : (pfns l).Nodup) : l.countP (fun r => r.pfn == p) ≤ 1 := by
  induction l with
  | nil => simp
  | cons x xs ih =>
    simp only [pfns, List.map_cons, List.nodup_cons] at h
    obtain ⟨hx, hxs⟩ := h
    by_cases hp : (x.pfn == p) = true
    · have hz : xs.countP (fun r => r.pfn == p) = 0 := by
        rw [List.countP_eq_zero]
        intro r hr hc
        have hpe : r.pfn = p := by simpa using hc
        have hxp : x.pfn = p := by simpa using hp
        exact hx (List.mem_map.mpr ⟨r, hr, by rw [hpe, hxp]⟩)
      simp only [List.countP_cons, hp, if_true]
      omega
    · have hpf : (x.pfn == p) = false := by simpa using hp
      simp only [List.countP_cons, hpf, if_false]
      simpa using ih hxs

theorem countP_zero_of_far (cfg : Config) (p : Nat) :
    ∀ (t : Table) (k : Nat),
    (∀ i, bucketOK cfg (i + k) (t.getD i [])) → hmod cfg p < k →
    (List.flatten t).countP (fun r => r.pfn == p) = 0 := by
  intro t
  induction t with
  | nil =>
    intro k hOK hk
    rfl
  | cons b bs ih =>
    intro k hOK hk
    have hb := hOK 0
    simp only [List.getD_cons_zero, Nat.zero_add] at hb
    have htail : ∀ i, bucketOK cfg (i + (k + 1)) (bs.getD i []) := by
      intro i
      have hi := hOK (i + 1)
      simp only [List.getD_cons_succ] at hi
      rw [show i + 1 + k = i + (k + 1) from by omega] at hi
      exact hi
    simp only [List.flatten_cons, List.countP_append]
    have h1 : b.countP (fun r => r.pfn == p) = 0 := by
      rw [List.countP_eq_zero]
      intro r hr hc
      have hh : hmod cfg r.pfn = k := hb.1 r.pfn (List.mem_map_of_mem _ hr)
      have hpe : r.pfn = p := by simpa using hc
      rw [hpe] at hh
      omega
    have h2 := ih (k + 1) htail (by omega)
    omega

theorem count_le_one_of_WF (cfg : Config) (t : Table) (hwf : WF cfg t)
    (p : Nat) : (tableRecords t).countP (fun r => r.pfn == p) ≤ 1 := by
  have main : ∀ (u : Table) (k : Nat),
      (∀ i, bucketOK cfg (i + k) (u.getD i [])) →
      (List.flatten u).countP (fun r => r.pfn == p) ≤ 1 := by
    intro u
    induction u with
    | nil =>
      intro k hOK
      simp
    | cons b bs ih =>
      intro k hOK
      have hb := hOK 0
      simp only [List.getD_cons_zero, Nat.zero_add] at hb
      have htail : ∀ i, bucketOK cfg (i + (k + 1)) (bs.getD i []) := by
        intro i
        have hi := hOK (i + 1)
        simp only [List.getD_cons_succ] at hi
        rw [show i + 1 + k = i + (k + 1) from by omega] at hi
        exact hi
      simp only [List.flatten_cons, List.countP_append]
      by_cases hk : hmod cfg p = k
      · have hle := countP_le_one_of_nodup b p hb.2
        have hz := countP_zero_of_far cfg p bs (k + 1) htail (by omega)
        omega
      · have h1 : b.countP (fun r => r.pfn == p) = 0 := by
          rw [List.countP_eq_zero]
          intro r hr hc
          have hh : hmod cfg r.pfn = k := hb.1 r.pfn (List.mem_map_of_mem _ hr)
          have hpe : r.pfn = p := by simpa using hc
          rw [hpe] at hh
          exact hk hh
        have h2 := ih (k + 1) htail
        omega
  have h0 : ∀ i, bucketOK cfg (i + 0) (t.getD i []) := by
    intro i
    simpa using hwf.2 i
  exact main t 0 h0

theorem WF_emptyTable (cfg : Config) : WF cfg (emptyTable cfg.nbkts) := by
  constructor
  · simp [emptyTable]
  · intro i
    have hget : (emptyTable cfg.nbkts).getD i ([] : List HotnessInfo) = [] := by
      unfold emptyTable
      by_cases h : i < cfg.nbkts
      · rw [List.getD_eq_getElem _ _ (by simpa using h)]
        simp
      · exact List.getD_eq_default _ _ (by simpa using Nat.le_of_not_lt h)
    rw [hget]
    exact ⟨by simp [pfns], by simp [pfns]⟩

/-- C9: confirmed. Starting from the empty table, after any sequence
of record_access and sweep operations (with arbitrary page
environments, allocation outcomes and migration outcomes) that did not
crash, every pfn has at most one record in the Hotness Table. The
uniqueness is structural: record_access inserts only after the lookup
in the owning bucket found nothing, and sweeps only remove records. -/
theorem c9_confirmed (cfg : Config) (ops : List Op) (t : Table)
    (h : run cfg ops (emptyTable cfg.nbkts) = some t) (p : Nat) :
    (tableRecords t).countP (fun r => r.pfn == p) ≤ 1 :=
  count_le_one_of_WF cfg t
    (WF_runState cfg ops (emptyTable cfg.nbkts) t (WF_emptyTable cfg) h) p

/-- Witness for C9 at a concrete input: the three-access sequence
c9ops reaching table c9T, checked for pfn 5. -/
theorem c9_witness :
    run cfgC c9ops (emptyTable cfgC.nbkts) = some c9T ∧
    (tableRecords c9T).countP (fun r => r.pfn == 5) ≤ 1 :=
  ⟨rfl, c9_confirmed cfgC c9ops c9T rfl 5⟩

end KpromotedModel
